import Mathlib

/-!
# Verification of the expense-tracker ledger core

Shallow embedding of `src/expense_tracker.py`: the `Expense` record model
(`to_csv_row` / `from_csv_row`), amount and date parsing (`parse_amount`,
`parse_date`), the store helpers (`read_expenses`, `get_next_id`), the
query engine (`within_range`, the `list` filter, the `summary` grouping),
together with theorems settling the specification claims.

Python's `decimal.Decimal` values are modelled by `PyDec`: finite values
as exact rationals plus the special values NaN and ±Infinity, with the
constructor's numeric-string grammar (optional sign, digits, fraction,
exponent, and the NaN/Infinity literals) modelled by `decParse`.
Python `date` objects are modelled by `PyDate` triples with the calendar
validity check performed by `datetime`.
-/

namespace ExpTrack

/-! ## Digits and numerals -/

/-- Numeric value of a decimal digit character. -/
def digitVal (c : Char) : Nat := c.toNat - 48

/-- The decimal digit character for `n % 10`. -/
def digitChar (n : Nat) : Char := Char.ofNat (48 + n % 10)

/-- Value of a list of digit characters, most significant first. -/
def digitsToNat (cs : List Char) : Nat := cs.foldl (fun a c => a * 10 + digitVal c) 0

/-- Decimal digit characters of `n`, most significant first, with structural
fuel so that it evaluates by kernel reduction. -/
def natToDigitsF : Nat → Nat → List Char
  | 0, _ => []
  | fuel + 1, n =>
    if n < 10 then [digitChar n]
    else natToDigitsF fuel (n / 10) ++ [digitChar (n % 10)]

/-- Decimal digit characters of `n`, most significant first (Python `str` on a
nonnegative `int`). -/
def natToDigits (n : Nat) : List Char := natToDigitsF (n + 1) n

def natToStr (n : Nat) : String := ⟨natToDigits n⟩

/-- Python `str` on an `int` (possibly negative). -/
def intToStr (i : Int) : String := if i < 0 then "-" ++ natToStr i.natAbs else natToStr i.natAbs

theorem digitVal_digitChar (n : Nat) : digitVal (digitChar n) = n % 10 := by
  have h : n % 10 < 10 := Nat.mod_lt _ (by omega)
  unfold digitVal digitChar
  interval_cases h : n % 10 <;> rfl

theorem isDigit_digitChar (n : Nat) : (digitChar n).isDigit = true := by
  have h : n % 10 < 10 := Nat.mod_lt _ (by omega)
  unfold digitChar
  interval_cases h : n % 10 <;> rfl

theorem toLower_digitChar (n : Nat) : (digitChar n).toLower = digitChar n := by
  have h : n % 10 < 10 := Nat.mod_lt _ (by omega)
  unfold digitChar
  interval_cases h : n % 10 <;> rfl

theorem foldl_digitsToNat (ys : List Char) :
    ∀ a : Nat, ys.foldl (fun a c => a * 10 + digitVal c) a
      = a * 10 ^ ys.length + digitsToNat ys := by
  induction ys with
  | nil => intro a; simp [digitsToNat]
  | cons c cs ih =>
    intro a
    show cs.foldl _ (a * 10 + digitVal c) = _
    rw [ih (a * 10 + digitVal c)]
    have : digitsToNat (c :: cs) = digitVal c * 10 ^ cs.length + digitsToNat cs := by
      show cs.foldl _ (0 * 10 + digitVal c) = _
      rw [ih (0 * 10 + digitVal c)]
      ring
    rw [this]
    simp [List.length_cons]
    ring

theorem digitsToNat_append (xs ys : List Char) :
    digitsToNat (xs ++ ys) = digitsToNat xs * 10 ^ ys.length + digitsToNat ys := by
  unfold digitsToNat
  rw [List.foldl_append]
  exact foldl_digitsToNat ys _

theorem natToDigitsF_le_fuel (fuel n : Nat) (h : n < fuel) :
    natToDigitsF fuel n
      = if n < 10 then [digitChar n]
        else natToDigitsF (fuel - 1) (n / 10) ++ [digitChar (n % 10)] := by
  cases fuel with
  | zero => omega
  | succ f => rfl

theorem digitsToNat_natToDigitsF :
    ∀ fuel n : Nat, n < fuel → digitsToNat (natToDigitsF fuel n) = n := by
  intro fuel
  induction fuel with
  | zero => intro n hn; omega
  | succ f ih =>
    intro n hn
    show digitsToNat
      (if n < 10 then [digitChar n] else natToDigitsF f (n / 10) ++ [digitChar (n % 10)]) = n
    by_cases h : n < 10
    · rw [if_pos h]
      simp [digitsToNat, digitVal_digitChar, Nat.mod_eq_of_lt h]
    · rw [if_neg h, digitsToNat_append, ih (n / 10) (by omega)]
      simp [digitsToNat, digitVal_digitChar]
      omega

theorem digitsToNat_natToDigits (n : Nat) : digitsToNat (natToDigits n) = n :=
  digitsToNat_natToDigitsF (n + 1) n (by omega)

theorem natToDigitsF_all_digit :
    ∀ fuel n : Nat, n < fuel → (natToDigitsF fuel n).all Char.isDigit = true := by
  intro fuel
  induction fuel with
  | zero => intro n hn; omega
  | succ f ih =>
    intro n hn
    show (if n < 10 then [digitChar n]
      else natToDigitsF f (n / 10) ++ [digitChar (n % 10)]).all Char.isDigit = true
    by_cases h : n < 10
    · rw [if_pos h]; simp [isDigit_digitChar]
    · rw [if_neg h]
      simp only [List.all_append]
      rw [ih (n / 10) (by omega)]
      simp [isDigit_digitChar]

theorem natToDigits_all_digit (n : Nat) : (natToDigits n).all Char.isDigit = true :=
  natToDigitsF_all_digit (n + 1) n (by omega)

theorem natToDigits_ne_nil (n : Nat) : natToDigits n ≠ [] := by
  show (if n < 10 then [digitChar n] else _) ≠ []
  by_cases h : n < 10 <;> simp [h]

/-! ## Dates

Python `datetime.date` objects are triples year/month/day; `datetime.date`
only ever holds a calendar-valid date with `1 ≤ year ≤ 9999`.  Comparison of
dates is lexicographic.
-/

structure PyDate where
  year : Nat
  month : Nat
  day : Nat
deriving DecidableEq, Repr

def isLeapYear (y : Nat) : Bool :=
  y % 4 == 0 && (y % 100 != 0 || y % 400 == 0)

def daysInMonth (y m : Nat) : Nat :=
  if m == 2 then (if isLeapYear y then 29 else 28)
  else if m == 4 || m == 6 || m == 9 || m == 11 then 30
  else 31

/-- The dates representable by `datetime.date` (its constructor raises
`ValueError` outside this range). -/
def validDate (d : PyDate) : Bool :=
  1 ≤ d.year && d.year ≤ 9999 && 1 ≤ d.month && d.month ≤ 12
    && 1 ≤ d.day && d.day ≤ daysInMonth d.year d.month

/-- Python `date`'s `<`: lexicographic on (year, month, day). -/
def dateLt (a b : PyDate) : Bool :=
  decide (a.year < b.year ∨ (a.year = b.year ∧
    (a.month < b.month ∨ (a.month = b.month ∧ a.day < b.day))))

/-- Python `date`'s `<=`: lexicographic on (year, month, day). -/
def dateLe (a b : PyDate) : Bool :=
  decide (a.year < b.year ∨ (a.year = b.year ∧
    (a.month < b.month ∨ (a.month = b.month ∧ a.day ≤ b.day))))

theorem not_dateLt (a b : PyDate) : (!dateLt a b) = dateLe b a := by
  unfold dateLt dateLe
  rw [← decide_not, decide_eq_decide]
  omega

/-- `f"{n:02d}"` for `n < 100` (used by `date.isoformat` for month/day and by
`Decimal` formatting for the cents part). -/
def pad2 (n : Nat) : List Char := [digitChar (n / 10), digitChar n]

/-- `f"{y:04d}"` for `y ≤ 9999` (the year part of `date.isoformat`). -/
def pad4 (n : Nat) : List Char :=
  [digitChar (n / 1000), digitChar (n / 100), digitChar (n / 10), digitChar n]

/-- `date.isoformat()`: `YYYY-MM-DD`, zero padded. -/
def isoformatChars (d : PyDate) : List Char :=
  pad4 d.year ++ '-' :: (pad2 d.month ++ '-' :: pad2 d.day)

def isoformat (d : PyDate) : String := ⟨isoformatChars d⟩

/-- `strftime("%Y-%m")`: the `YYYY-MM` prefix used by month grouping. -/
def strftimeYM (d : PyDate) : String := ⟨pad4 d.year ++ '-' :: pad2 d.month⟩

/-- Longest prefix of decimal digits, with the remainder. -/
def takeDigits : List Char → List Char × List Char
  | [] => ([], [])
  | c :: rest =>
    if c.isDigit then
      let p := takeDigits rest
      (c :: p.1, p.2)
    else ([], c :: rest)

theorem takeDigits_append (xs : List Char) (hxs : xs.all Char.isDigit = true) :
    ∀ rest : List Char, (∀ c cs, rest = c :: cs → c.isDigit = false) →
      takeDigits (xs ++ rest) = (xs, rest) := by
  induction xs with
  | nil =>
    intro rest hrest
    cases rest with
    | nil => rfl
    | cons c cs =>
      simp only [List.nil_append, takeDigits, hrest c cs rfl]
      simp
  | cons x xs ih =>
    intro rest hrest
    simp only [List.all_cons, Bool.and_eq_true] at hxs
    simp only [List.cons_append, takeDigits, hxs.1, if_pos, List.append_eq]
    rw [ih hxs.2 rest hrest]

theorem takeDigits_all (xs : List Char) (hxs : xs.all Char.isDigit = true) :
    takeDigits xs = (xs, []) := by
  have h := takeDigits_append xs hxs [] (by intro c cs hc; exact absurd hc (by simp))
  simpa using h

theorem daysInMonth_le_31 (y m : Nat) : daysInMonth y m ≤ 31 := by
  unfold daysInMonth
  split_ifs <;> omega

theorem hyphen_isDigit : ('-' : Char).isDigit = false := by decide

/-- Model of `datetime.strptime(s, "%Y-%m-%d").date()`: `%Y` matches exactly
four digits, `%m` and `%d` match one or two digits with values in 1–12 and
1–31 respectively (CPython's `_strptime` regex, which does not require zero
padding), the whole string must be consumed, and the resulting triple must be
a constructible `datetime.date`. -/
def parseDateChars (cs : List Char) : Option PyDate :=
  match cs with
  | c1 :: c2 :: c3 :: c4 :: c5 :: rest =>
    if c1.isDigit && c2.isDigit && c3.isDigit && c4.isDigit && (c5 == '-') then
      let y := digitsToNat [c1, c2, c3, c4]
      let p := takeDigits rest
      match p.2 with
      | c6 :: rest3 =>
        if c6 == '-' then
          let q := takeDigits rest3
          let m := digitsToNat p.1
          let d := digitsToNat q.1
          if q.2.isEmpty && 1 ≤ p.1.length && p.1.length ≤ 2 && 1 ≤ m && m ≤ 12
              && 1 ≤ q.1.length && q.1.length ≤ 2 && 1 ≤ d && d ≤ 31
              && validDate ⟨y, m, d⟩ then
            some ⟨y, m, d⟩
          else none
        else none
      | _ => none
    else none
  | _ => none

theorem parseDateChars_isoformat (d : PyDate) (hv : validDate d = true) :
    parseDateChars (isoformatChars d) = some d := by
  obtain ⟨y, m, dd⟩ := d
  have hb := hv
  simp only [validDate, Bool.and_eq_true, decide_eq_true_eq] at hb
  obtain ⟨⟨⟨⟨⟨hy1, hy2⟩, hm1⟩, hm2⟩, hd1⟩, hd2⟩ := hb
  have hdd31 : dd ≤ 31 := hd2.trans (daysInMonth_le_31 y m)
  simp only [isoformatChars, pad4, pad2, List.cons_append, List.nil_append]
  simp only [parseDateChars, isDigit_digitChar, takeDigits, hyphen_isDigit,
    Bool.false_eq_true, if_true, if_false, beq_self_eq_true, Bool.and_self, Bool.true_and,
    Bool.and_true, ite_true, ite_false, digitsToNat, digitVal_digitChar, List.foldl]
  have hY : ((y / 1000 % 10 * 10 + y / 100 % 10) * 10 + y / 10 % 10) * 10 + y % 10 = y := by
    omega
  have hM : m / 10 % 10 * 10 + m % 10 = m := by omega
  have hD : dd / 10 % 10 * 10 + dd % 10 = dd := by omega
  simp only [Nat.zero_mul, Nat.zero_add, hY, hM, hD]
  rw [if_pos]
  simp only [hv, List.isEmpty_nil, List.length_cons, List.length_nil, Bool.and_eq_true,
    decide_eq_true_eq, and_true, true_and]
  omega

/-- `parse_date` from the source: empty/absent input defaults to today,
otherwise `strptime("%Y-%m-%d")`, any failure becoming
`argparse.ArgumentTypeError` ("Invalid date format. Use YYYY-MM-DD."). -/
def parse_date (dateStr : Option String) (today : PyDate) : Except String PyDate :=
  match dateStr with
  | none => .ok today
  | some s =>
    if s = "" then .ok today
    else
      match parseDateChars s.data with
      | some d => .ok d
      | none => .error "Invalid date format. Use YYYY-MM-DD."

/-! ## Decimal values

`decimal.Decimal` is modelled by `PyDec`: an exact rational for finite
values (the library is exact arbitrary-precision for the magnitudes this
program handles; context-precision rounding beyond 28 significant digits is
outside the model), plus NaN and signed infinity.  `decParse` models the
constructor's numeric-string grammar: optional sign; digits with an optional
fractional part and an optional exponent; or the `NaN`/`sNaN` (with optional
diagnostic digits) and `Inf`/`Infinity` literals, case-insensitively.
Underscore and surrounding-whitespace normalization is omitted (no claim
involves it). -/
inductive PyDec
  | finite (q : ℚ)
  | nan
  | inf (neg : Bool)
deriving DecidableEq, Repr

/-- Exponent suffix of a decimal numeric string: empty, or `e`/`E`, an
optional sign, and at least one digit, consuming the whole remainder. -/
def parseExp : List Char → Option Int
  | [] => some 0
  | c :: rest =>
    if c == 'e' || c == 'E' then
      match rest with
      | [] => none
      | d :: r2 =>
        if d == '-' then
          let p := takeDigits r2
          if !p.1.isEmpty && p.2.isEmpty then some (-(digitsToNat p.1 : Int)) else none
        else if d == '+' then
          let p := takeDigits r2
          if !p.1.isEmpty && p.2.isEmpty then some ((digitsToNat p.1 : Int)) else none
        else
          let p := takeDigits rest
          if !p.1.isEmpty && p.2.isEmpty then some ((digitsToNat p.1 : Int)) else none
    else none

/-- Unsigned part of a decimal numeric string: integer digits, optional
`.` and fraction digits (at least one digit in total), optional exponent.
The value is `digits · 10 ^ (exponent − fraction length)`, written with
natural-number powers so that it evaluates by kernel reduction. -/
def parseUnsignedDec (cs : List Char) : Option ℚ :=
  let p := takeDigits cs
  let f : List Char × List Char :=
    match p.2 with
    | c :: rest => if c == '.' then takeDigits rest else ([], p.2)
    | [] => ([], [])
  if p.1.isEmpty && f.1.isEmpty then none
  else
    match parseExp f.2 with
    | some e =>
      let ex : Int := e - (f.1.length : Int)
      some
        (if 0 ≤ ex then (digitsToNat (p.1 ++ f.1) : ℚ) * (10 : ℚ) ^ ex.toNat
         else (digitsToNat (p.1 ++ f.1) : ℚ) / (10 : ℚ) ^ (-ex).toNat)
    | none => none

/-- `NaN`/`sNaN` literal with optional diagnostic digits (lower-cased input). -/
def isNanStr : List Char → Bool
  | 'n' :: 'a' :: 'n' :: rest => rest.all Char.isDigit
  | 's' :: 'n' :: 'a' :: 'n' :: rest => rest.all Char.isDigit
  | _ => false

/-- `Inf`/`Infinity` literal (lower-cased input). -/
def isInfStr (low : List Char) : Bool :=
  low == ['i', 'n', 'f'] || low == ['i', 'n', 'f', 'i', 'n', 'i', 't', 'y']

/-- Model of the `Decimal` constructor, on the character list. -/
def decParseChars : List Char → Option PyDec
  | [] => none
  | c :: rest =>
    let sb : Bool × List Char :=
      if c == '-' then (true, rest)
      else if c == '+' then (false, rest)
      else (false, c :: rest)
    let low := sb.2.map Char.toLower
    if isNanStr low then some .nan
    else if isInfStr low then some (.inf sb.1)
    else
      match parseUnsignedDec sb.2 with
      | some q => some (.finite (if sb.1 then -q else q))
      | none => none

/-- Model of the `Decimal` constructor on a string. -/
def decParse (s : String) : Option PyDec := decParseChars s.data

/-- `Decimal` addition (exact on finite values; NaN propagates). -/
def PyDec.add : PyDec → PyDec → PyDec
  | .nan, _ => .nan
  | _, .nan => .nan
  | .inf s, .inf t => if s == t then .inf s else .nan
  | .inf s, .finite _ => .inf s
  | .finite _, .inf t => .inf t
  | .finite a, .finite b => .finite (a + b)

/-- `x <= Decimal("0")`: `none` models the `InvalidOperation` a NaN
comparison raises. -/
def PyDec.leZero : PyDec → Option Bool
  | .finite q => some (decide (q ≤ 0))
  | .nan => none
  | .inf neg => some neg

/-- `ROUND_HALF_UP` to an integer: nearest, ties away from zero. -/
def roundHalfUp (x : ℚ) : ℤ := if 0 ≤ x then ⌊x + 1 / 2⌋ else -⌊-x + 1 / 2⌋

/-- Value of `amount.quantize(Decimal("0.01"), rounding=ROUND_HALF_UP)`. -/
def quantize2 (q : ℚ) : ℚ := (roundHalfUp (q * 100) : ℚ) / 100

/-- `str()` of a `Decimal` with exponent −2 whose value is `c / 100`:
optional sign, integer digits, `.`, two cent digits. -/
def formatCents (c : ℤ) : String :=
  ⟨(if c < 0 then ['-'] else []) ++ natToDigits (c.natAbs / 100)
    ++ '.' :: pad2 (c.natAbs % 100)⟩

/-- Python `int()` on a character list: optional sign and at least one digit
(whitespace/underscore normalization omitted; no claim involves it). -/
def intParseChars : List Char → Option Int
  | [] => none
  | c :: rest =>
    if c == '-' then
      if !rest.isEmpty && rest.all Char.isDigit then some (-(digitsToNat rest : Int))
      else none
    else if c == '+' then
      if !rest.isEmpty && rest.all Char.isDigit then some ((digitsToNat rest : Int))
      else none
    else if (c :: rest).all Char.isDigit then some ((digitsToNat (c :: rest) : Int))
    else none

/-- Python `int()` on a string. -/
def intParse (s : String) : Option Int := intParseChars s.data

/-- Python `str.strip()`: drop leading and trailing whitespace. -/
def pyStrip (s : String) : String :=
  ⟨((s.data.dropWhile Char.isWhitespace).reverse.dropWhile Char.isWhitespace).reverse⟩

/-! ## Numeric round-trip lemmas -/

theorem digitsToNat_pad2 (n : Nat) (h : n < 100) : digitsToNat (pad2 n) = n := by
  simp only [pad2, digitsToNat, List.foldl, digitVal_digitChar]
  omega

theorem pad2_all_digit (n : Nat) : (pad2 n).all Char.isDigit = true := by
  simp [pad2, isDigit_digitChar]

theorem map_toLower_natToDigitsF :
    ∀ fuel n : Nat, n < fuel →
      (natToDigitsF fuel n).map Char.toLower = natToDigitsF fuel n := by
  intro fuel
  induction fuel with
  | zero => intro n hn; omega
  | succ f ih =>
    intro n hn
    show (if n < 10 then [digitChar n]
        else natToDigitsF f (n / 10) ++ [digitChar (n % 10)]).map Char.toLower
      = (if n < 10 then [digitChar n] else natToDigitsF f (n / 10) ++ [digitChar (n % 10)])
    by_cases h : n < 10
    · simp [h, toLower_digitChar]
    · simp only [h, if_false, List.map_append, ih (n / 10) (by omega),
        List.map_cons, List.map_nil, toLower_digitChar]

theorem map_toLower_natToDigits (n : Nat) :
    (natToDigits n).map Char.toLower = natToDigits n :=
  map_toLower_natToDigitsF (n + 1) n (by omega)

theorem natToDigitsF_head :
    ∀ fuel n : Nat, n < fuel → ∃ k tl, natToDigitsF fuel n = digitChar k :: tl := by
  intro fuel
  induction fuel with
  | zero => intro n hn; omega
  | succ f ih =>
    intro n hn
    show ∃ k tl,
      (if n < 10 then [digitChar n] else natToDigitsF f (n / 10) ++ [digitChar (n % 10)])
        = digitChar k :: tl
    by_cases h : n < 10
    · rw [if_pos h]; exact ⟨n, [], rfl⟩
    · rw [if_neg h]
      obtain ⟨k, tl, htl⟩ := ih (n / 10) (by omega)
      exact ⟨k, tl ++ [digitChar (n % 10)], by rw [htl]; rfl⟩

theorem natToDigits_head (n : Nat) : ∃ k tl, natToDigits n = digitChar k :: tl :=
  natToDigitsF_head (n + 1) n (by omega)

theorem digitChar_beq_false (c : Char) (hc : c.isDigit = false) (k : Nat) :
    (digitChar k == c) = false := by
  rw [beq_eq_false_iff_ne]
  rintro rfl
  rw [isDigit_digitChar] at hc
  cases hc

theorem isNanStr_digitChar (k : Nat) (l : List Char) :
    isNanStr (digitChar k :: l) = false := by
  have h : k % 10 < 10 := Nat.mod_lt _ (by omega)
  unfold digitChar
  interval_cases h : k % 10 <;> rfl

theorem isInfStr_digitChar (k : Nat) (l : List Char) :
    isInfStr (digitChar k :: l) = false := by
  have h : k % 10 < 10 := Nat.mod_lt _ (by omega)
  unfold digitChar
  interval_cases h : k % 10 <;> simp [isInfStr]

theorem dot_isDigit : ('.' : Char).isDigit = false := by decide

theorem natToDigits_isEmpty (n : Nat) : (natToDigits n).isEmpty = false := by
  have h := natToDigits_ne_nil n
  cases hn : natToDigits n with
  | nil => exact absurd hn h
  | cons c l => rfl

theorem intParse_intToStr (i : Int) (h : 0 ≤ i) : intParse (intToStr i) = some i := by
  rw [intToStr, if_neg (by omega)]
  obtain ⟨k, tl, htl⟩ := natToDigits_head i.natAbs
  show intParseChars (natToDigits i.natAbs) = some i
  rw [htl, intParseChars]
  rw [digitChar_beq_false _ (by decide) k, digitChar_beq_false _ (by decide) k]
  simp only [Bool.false_eq_true, if_false, ← htl, natToDigits_all_digit, if_true]
  rw [digitsToNat_natToDigits]
  congr 1
  omega

theorem takeDigits_natToDigits_cons (n : Nat) (c : Char) (hc : c.isDigit = false)
    (l : List Char) : takeDigits (natToDigits n ++ c :: l) = (natToDigits n, c :: l) :=
  takeDigits_append _ (natToDigits_all_digit n) _
    (by intro d ds hd; cases hd; exact hc)

theorem decParse_formatCents (c : ℤ) (hc : 0 ≤ c) :
    decParse (formatCents c) = some (.finite ((c : ℚ) / 100)) := by
  obtain ⟨k, tl, htl⟩ := natToDigits_head (c.natAbs / 100)
  rw [formatCents, if_neg (by omega)]
  show decParseChars ([] ++ natToDigits (c.natAbs / 100) ++ '.' :: pad2 (c.natAbs % 100))
      = some (.finite ((c : ℚ) / 100))
  rw [List.nil_append, htl, List.cons_append, decParseChars]
  rw [digitChar_beq_false _ (by decide) k, digitChar_beq_false _ (by decide) k]
  simp only [Bool.false_eq_true, if_false, isNanStr_digitChar, isInfStr_digitChar,
    List.map_cons, toLower_digitChar]
  rw [← List.cons_append, ← htl, parseUnsignedDec]
  simp only [takeDigits_natToDigits_cons _ _ dot_isDigit, beq_self_eq_true, if_true,
    takeDigits_all _ (pad2_all_digit _), natToDigits_isEmpty, Bool.false_and,
    Bool.false_eq_true, if_false, parseExp]
  rw [digitsToNat_append, digitsToNat_natToDigits, digitsToNat_pad2 _ (Nat.mod_lt _ (by omega))]
  have hlen : (pad2 (c.natAbs % 100)).length = 2 := rfl
  rw [hlen]
  have hval : c.natAbs / 100 * 10 ^ 2 + c.natAbs % 100 = c.natAbs := by omega
  rw [hval]
  have hexp : ((0 : ℤ) - ((2 : ℕ) : ℤ)) = -2 := by norm_num
  rw [hexp, if_neg (by norm_num)]
  have ht : ((-(-2 : ℤ)).toNat) = 2 := rfl
  rw [ht]
  have h102 : ((10 : ℚ) ^ (2 : ℕ)) = 100 := by norm_num
  rw [h102]
  have h1 : (c.natAbs : ℤ) = c := Int.natAbs_of_nonneg hc
  have hcast : ((c.natAbs : ℕ) : ℚ) = (c : ℚ) := by
    rw [← h1]
    exact (Int.cast_natCast _).symm
  rw [hcast]

/-! ## The Expense record model

`Row` models the CSV-level dictionary (`csv.DictWriter` row / `csv.DictReader`
row): one optional string per header field, looked up by name.  An absent
field models a missing key (`dict.get` default). -/

structure Row where
  id : Option String
  date : Option String
  amount : Option String
  category : Option String
  note : Option String
deriving DecidableEq, Repr

structure Expense where
  expense_id : Int
  expense_date : PyDate
  amount : PyDec
  category : String
  note : String
deriving DecidableEq, Repr

/-- `Expense.to_csv_row`: the five stringified fields; the amount is
`f"{self.amount.quantize(Decimal('0.01'), rounding=ROUND_HALF_UP)}"`.
`quantize` raises `InvalidOperation` on NaN/infinite amounts, modelled by
`none`. -/
def Expense.to_csv_row (e : Expense) : Option Row :=
  match e.amount with
  | .finite q =>
    some
      { id := some (intToStr e.expense_id)
        date := some (isoformat e.expense_date)
        amount := some (formatCents (roundHalfUp (q * 100)))
        category := some e.category
        note := some e.note }
  | _ => none

/-- `Expense.from_csv_row`: id via `int(row.get("id", "0"))`, date via
`strptime(row.get("date", ""), "%Y-%m-%d")`, amount via
`Decimal(row.get("amount", "0"))`, category/note via
`(row.get(...) or "").strip()`; each failure raises `ValueError` with the
offending raw value (`str(None)` is `"None"` for a missing field). -/
def Expense.from_csv_row (row : Row) : Except String Expense :=
  match intParse (row.id.getD "0") with
  | none => .error ("Invalid id in CSV: " ++ row.id.getD "None")
  | some i =>
    match parseDateChars (row.date.getD "").data with
    | none => .error ("Invalid date in CSV: " ++ row.date.getD "None")
    | some d =>
      match decParse (row.amount.getD "0") with
      | none => .error ("Invalid amount in CSV: " ++ row.amount.getD "None")
      | some a =>
        .ok
          { expense_id := i
            expense_date := d
            amount := a
            category := pyStrip (row.category.getD "")
            note := pyStrip (row.note.getD "") }

/-! ## Store -/

/-- `read_expenses`: decode the data rows in file order; the first failing
row's exception aborts the whole load (no partial result, no skipping). -/
def read_expenses : List Row → Except String (List Expense)
  | [] => .ok []
  | r :: rest =>
    match Expense.from_csv_row r with
    | .error msg => .error msg
    | .ok e =>
      match read_expenses rest with
      | .error msg => .error msg
      | .ok es => .ok (e :: es)

/-- `get_next_id`: running maximum (starting at 0) plus one. -/
def get_next_id (expenses : List Expense) : Int :=
  (expenses.foldl (fun m e => if e.expense_id > m then e.expense_id else m) 0) + 1

/-- `parse_amount`'s outcome: `argparse.ArgumentTypeError` for a
non-numeric string ("Amount must be a number") or a non-positive value
("Amount must be positive"); a NaN amount raises an uncaught
`InvalidOperation` at the `amount <= Decimal("0")` comparison. -/
inductive AmountResult
  | ok (d : PyDec)
  | invalidAmount
  | nonPositive
  | uncaughtInvalidOperation
deriving DecidableEq, Repr

/-- `parse_amount` from the source. -/
def parse_amount (s : String) : AmountResult :=
  match decParse s with
  | none => .invalidAmount
  | some d =>
    match d.leZero with
    | none => .uncaughtInvalidOperation
    | some true => .nonPositive
    | some false => .ok d

/-- `add_expense_command`'s record construction and append: the new expense
gets `get_next_id` of the loaded store, and
`category = (args.category or "uncategorized").strip()`. -/
def add_expense (store : List Expense) (d : PyDate) (amt : PyDec)
    (category note : String) : List Expense :=
  store ++
    [{ expense_id := get_next_id store
       expense_date := d
       amount := amt
       category := pyStrip (if category = "" then "uncategorized" else category)
       note := pyStrip note }]

/-- Iterated adds (one `add` command per input, in order). -/
def addMany : List Expense → List (PyDate × PyDec × String × String) → List Expense
  | store, [] => store
  | store, x :: xs => addMany (add_expense store x.1 x.2.1 x.2.2.1 x.2.2.2) xs

/-! ## Query engine -/

/-- `within_range` from the source: both bounds inclusive, absent bounds
pass. -/
def within_range (d : PyDate) (start stop : Option PyDate) : Bool :=
  (match start with
   | some s => !dateLt d s
   | none => true) &&
  (match stop with
   | some t => !dateLt t d
   | none => true)

/-- Python `str.lower()`: lower-case each character. -/
def pyLower (s : String) : String := ⟨s.data.map Char.toLower⟩

instance {ε α : Type} [DecidableEq ε] [DecidableEq α] : DecidableEq (Except ε α) :=
  fun a b =>
  match a, b with
  | .error x, .error y =>
    if h : x = y then .isTrue (by rw [h])
    else .isFalse (by intro hc; cases hc; exact h rfl)
  | .ok x, .ok y =>
    if h : x = y then .isTrue (by rw [h])
    else .isFalse (by intro hc; cases hc; exact h rfl)
  | .error x, .ok y => .isFalse (by intro hc; cases hc)
  | .ok x, .error y => .isFalse (by intro hc; cases hc)

/-- `(args.category or "").strip().lower() or None` from
`list_expenses_command`. -/
def category_filter_of (c : Option String) : Option String :=
  match c with
  | none => none
  | some s => if pyLower (pyStrip s) = "" then none else some (pyLower (pyStrip s))

/-- The record filter of `list_expenses_command`: skip when the category
filter is set and the lower-cased category differs, skip when out of range,
keep everything else in input order. -/
def filter_expenses (expenses : List Expense) (c : Option String)
    (start stop : Option PyDate) : List Expense :=
  expenses.filter fun e =>
    (match category_filter_of c with
     | some f => pyLower e.category == f
     | none => true) && within_range e.expense_date start stop

/-! ## Summary -/

inductive Grouping
  | category | day | month | all
deriving DecidableEq, Repr

/-- The grouping key of `summary_command`. -/
def summary_key (g : Grouping) (e : Expense) : String :=
  match g with
  | .category => if e.category = "" then "uncategorized" else e.category
  | .day => isoformat e.expense_date
  | .month => strftimeYM e.expense_date
  | .all => "all"

/-- The totals mapping of `summary_command`: a
`defaultdict(lambda: Decimal("0"))` updated with `totals[key] += e.amount`
for every in-range record. -/
def summary_totals (expenses : List Expense) (start stop : Option PyDate)
    (g : Grouping) : String → PyDec :=
  expenses.foldl
    (fun totals e =>
      if within_range e.expense_date start stop then
        fun k => if k = summary_key g e then (totals k).add e.amount else totals k
      else totals)
    (fun _ => .finite 0)

def PyDec.isFinite : PyDec → Bool
  | .finite _ => true
  | _ => false

/-- The rational value of a finite `PyDec` (0 on the special values). -/
def PyDec.toQ : PyDec → ℚ
  | .finite q => q
  | _ => 0

/-! ## Helper lemmas -/

theorem takeDigits_spec (l : List Char) :
    (takeDigits l).1 ++ (takeDigits l).2 = l
    ∧ (takeDigits l).1.all Char.isDigit = true
    ∧ ∀ c cs, (takeDigits l).2 = c :: cs → c.isDigit = false := by
  induction l with
  | nil => exact ⟨rfl, rfl, by intro c cs h; cases h⟩
  | cons x xs ih =>
    by_cases hx : x.isDigit
    · simp only [takeDigits, hx, if_pos, List.cons_append, List.all_cons]
      exact ⟨by rw [ih.1], by simp [hx, ih.2.1], ih.2.2⟩
    · simp only [takeDigits, hx, Bool.false_eq_true, if_false]
      refine ⟨rfl, rfl, ?_⟩
      intro c cs h
      cases h
      simpa using hx

theorem pyLower_eq_empty (s : String) : pyLower s = "" ↔ s = "" := by
  constructor
  · intro h
    have hd : s.data.map Char.toLower = ([] : List Char) := congrArg String.data h
    have hnil : s.data = [] := List.map_eq_nil_iff.mp hd
    obtain ⟨data⟩ := s
    have hd2 : data = [] := hnil
    subst hd2
    rfl
  · rintro rfl
    rfl

/-- `get_next_id`'s running maximum, exposed for reasoning. -/
def runningMax (l : List Expense) (m : Int) : Int :=
  l.foldl (fun m e => if e.expense_id > m then e.expense_id else m) m

theorem get_next_id_eq_runningMax (l : List Expense) :
    get_next_id l = runningMax l 0 + 1 := rfl

theorem runningMax_cons (x : Expense) (l : List Expense) (m : Int) :
    runningMax (x :: l) m
      = runningMax l (if x.expense_id > m then x.expense_id else m) := rfl

theorem le_runningMax (l : List Expense) : ∀ m : Int, m ≤ runningMax l m := by
  induction l with
  | nil => intro m; exact le_refl m
  | cons e l ih =>
    intro m
    show m ≤ runningMax l (if e.expense_id > m then e.expense_id else m)
    refine le_trans ?_ (ih _)
    split <;> omega

theorem mem_le_runningMax (l : List Expense) :
    ∀ (m : Int) (e : Expense), e ∈ l → e.expense_id ≤ runningMax l m := by
  induction l with
  | nil => intro m e he; cases he
  | cons x l ih =>
    intro m e he
    rcases List.mem_cons.mp he with h | h
    · subst h
      show e.expense_id ≤ runningMax l (if e.expense_id > m then e.expense_id else m)
      refine le_trans ?_ (le_runningMax l _)
      split <;> omega
    · exact ih _ e h

theorem runningMax_cases (l : List Expense) :
    ∀ m : Int, runningMax l m = m ∨ ∃ e ∈ l, runningMax l m = e.expense_id := by
  induction l with
  | nil => intro m; exact Or.inl rfl
  | cons x l ih =>
    intro m
    rw [runningMax_cons]
    rcases ih (if x.expense_id > m then x.expense_id else m) with h | ⟨e, he, h⟩
    · by_cases hx : x.expense_id > m
      · right
        exact ⟨x, List.mem_cons_self x l, by rw [h, if_pos hx]⟩
      · left
        rw [h, if_neg hx]
    · right
      exact ⟨e, List.mem_cons_of_mem x he, h⟩

theorem runningMax_le (l : List Expense) (m k : Int) (hm : m ≤ k)
    (h : ∀ e ∈ l, e.expense_id ≤ k) : runningMax l m ≤ k := by
  rcases runningMax_cases l m with h0 | ⟨e, he, h0⟩
  · omega
  · rw [h0]; exact h e he

/-- The id list 1, 2, …, n (as integers). -/
def natIds (n : Nat) : List Int := (List.range' 1 n).map (Nat.cast : Nat → Int)

theorem natIds_concat (n : Nat) : natIds (n + 1) = natIds n ++ [(n : Int) + 1] := by
  unfold natIds
  have h := @List.range'_concat 1 1 n
  simp only [one_mul] at h
  rw [h, List.map_append]
  simp only [List.map_cons, List.map_nil]
  congr 2
  omega

theorem addMany_ids (inputs : List (PyDate × PyDec × String × String)) :
    ∀ (store : List Expense) (n : Nat),
      store.map (·.expense_id) = natIds n →
      (addMany store inputs).map (·.expense_id) = natIds (n + inputs.length) := by
  induction inputs with
  | nil =>
    intro store n h
    simpa using h
  | cons x xs ih =>
    intro store n h
    have hup : ∀ e ∈ store, e.expense_id ≤ (n : Int) := by
      intro e he
      have hmm : e.expense_id ∈ store.map (·.expense_id) := List.mem_map_of_mem _ he
      rw [h] at hmm
      obtain ⟨j, hj, hje⟩ := List.mem_map.mp hmm
      have := List.mem_range'_1.mp hj
      omega
    have hnid : get_next_id store = (n : Int) + 1 := by
      rw [get_next_id_eq_runningMax]
      have hle : runningMax store 0 ≤ (n : Int) :=
        runningMax_le store 0 n (Int.natCast_nonneg n) hup
      by_cases hn : n = 0
      · subst hn
        have h0 : store = [] := by
          cases store with
          | nil => rfl
          | cons a l => simp [natIds, List.range'] at h
        rw [h0]
        rfl
      · have hmem : ((n : Int)) ∈ store.map (·.expense_id) := by
          rw [h]
          exact List.mem_map_of_mem _ (List.mem_range'_1.mpr (by omega))
        obtain ⟨e, he, hei⟩ := List.mem_map.mp hmem
        have := mem_le_runningMax store 0 e he
        omega
    show (addMany (add_expense store x.1 x.2.1 x.2.2.1 x.2.2.2) xs).map (·.expense_id) = _
    rw [ih (add_expense store x.1 x.2.1 x.2.2.1 x.2.2.2) (n + 1) ?_]
    · congr 1
      simp only [List.length_cons]
      omega
    · unfold add_expense
      rw [List.map_append, h, hnid, natIds_concat]
      simp

/-! ## Claims -/

/-- C10: `get_next_id` always returns a strictly positive id, even when the
loaded collection (e.g. after hand edits) contains zero or negative ids. -/
theorem c10_next_id_always_positive (l : List Expense) : 1 ≤ get_next_id l := by
  rw [get_next_id_eq_runningMax]
  have := le_runningMax l 0
  omega

/-- C3: `get_next_id` is 1 on the empty collection and `1 + max id` on a
collection of positive-id records; after N adds to an empty store the
assigned ids are exactly 1..N in order; the result is invariant under
permutation of the collection, and a store with maximum id `k` assigns
`k + 1`. -/
theorem c3_next_identifier :
    (get_next_id [] = 1)
    ∧ (∀ (l : List Expense) (M : Int), (∀ e ∈ l, 0 < e.expense_id) →
        (l.map (·.expense_id)).maximum = some M → get_next_id l = 1 + M)
    ∧ (∀ inputs : List (PyDate × PyDec × String × String),
        (addMany [] inputs).map (·.expense_id) = natIds inputs.length)
    ∧ (∀ (l l' : List Expense), l.Perm l' → get_next_id l = get_next_id l')
    ∧ (∀ (l : List Expense) (k : Int), 0 < k → (∀ e ∈ l, e.expense_id ≤ k) →
        (∃ e ∈ l, e.expense_id = k) → get_next_id l = k + 1) := by
  refine ⟨rfl, ?_, ?_, ?_, ?_⟩
  · intro l M hpos hmax
    have hMmem : M ∈ l.map (·.expense_id) := List.maximum_mem hmax
    obtain ⟨e, he, hei⟩ := List.mem_map.mp hMmem
    have hub : ∀ x ∈ l, x.expense_id ≤ M := by
      intro x hx
      exact List.le_maximum_of_mem (List.mem_map_of_mem _ hx) hmax
    have hMpos : 0 < M := hei ▸ hpos e he
    rw [get_next_id_eq_runningMax]
    have h1 : runningMax l 0 ≤ M := runningMax_le l 0 M (by omega) hub
    have h2 : e.expense_id ≤ runningMax l 0 := mem_le_runningMax l 0 e he
    omega
  · intro inputs
    simpa using addMany_ids inputs [] 0 rfl
  · intro l l' hperm
    rw [get_next_id_eq_runningMax, get_next_id_eq_runningMax]
    have h1 : runningMax l 0 ≤ runningMax l' 0 :=
      runningMax_le l 0 _ (le_runningMax l' 0)
        (fun e he => mem_le_runningMax l' 0 e (hperm.mem_iff.mp he))
    have h2 : runningMax l' 0 ≤ runningMax l 0 :=
      runningMax_le l' 0 _ (le_runningMax l 0)
        (fun e he => mem_le_runningMax l 0 e (hperm.mem_iff.mpr he))
    omega
  · intro l k hk hub ⟨e, he, hei⟩
    rw [get_next_id_eq_runningMax]
    have h1 : runningMax l 0 ≤ k := runningMax_le l 0 k (by omega) hub
    have h2 : e.expense_id ≤ runningMax l 0 := mem_le_runningMax l 0 e he
    omega

/-- Witness for C3 at a concrete store: records with ids 2 and 5, maximum 5,
get next id 6; three adds to an empty store yield ids 1, 2, 3. -/
theorem c3_next_identifier_witness :
    get_next_id
        [{ expense_id := 2, expense_date := ⟨2024, 1, 1⟩, amount := .finite 1,
           category := "a", note := "" },
         { expense_id := 5, expense_date := ⟨2024, 1, 2⟩, amount := .finite 1,
           category := "b", note := "" }] = 1 + 5
    ∧ (addMany []
        [(⟨2024, 1, 1⟩, .finite 1, "a", ""), (⟨2024, 1, 2⟩, .finite 2, "b", ""),
         (⟨2024, 1, 3⟩, .finite 3, "c", "")]).map (·.expense_id)
        = natIds 3 := by
  constructor
  · exact c3_next_identifier.2.1 _ 5 (by decide) (by decide)
  · exact c3_next_identifier.2.2.1 _

theorem from_csv_row_ok (row : Row) (i : Int) (d : PyDate) (a : PyDec)
    (hid : intParse (row.id.getD "0") = some i)
    (hdate : parseDateChars (row.date.getD "").data = some d)
    (hamt : decParse (row.amount.getD "0") = some a) :
    Expense.from_csv_row row
      = .ok { expense_id := i, expense_date := d, amount := a,
              category := pyStrip (row.category.getD ""),
              note := pyStrip (row.note.getD "") } := by
  unfold Expense.from_csv_row
  rw [hid, hdate, hamt]

theorem read_expenses_singleton (r : Row) (e : Expense)
    (h : Expense.from_csv_row r = .ok e) : read_expenses [r] = .ok [e] := by
  simp [read_expenses, h]

/-- Concrete `Decimal` constructor values (the ℚ value is extracted by
kernel reduction up to `Rat` arithmetic, which `norm_num` then closes). -/
theorem decParse_zero : decParse "0" = some (.finite 0) := by
  have h : decParse "0" = some (.finite (((0 : ℕ) : ℚ) * (10 : ℚ) ^ (0 : ℕ))) := rfl
  rw [h]
  norm_num

theorem decParse_neg5 : decParse "-5" = some (.finite (-5)) := by
  have h : decParse "-5" = some (.finite (-(((5 : ℕ) : ℚ) * (10 : ℚ) ^ (0 : ℕ)))) := rfl
  rw [h]
  norm_num

theorem decParse_350 : decParse "3.50" = some (.finite (7 / 2)) := by
  have h : decParse "3.50" = some (.finite (((350 : ℕ) : ℚ) / (10 : ℚ) ^ (2 : ℕ))) := rfl
  rw [h]
  norm_num

theorem decParse_125 : decParse "12.5" = some (.finite (25 / 2)) := by
  have h : decParse "12.5" = some (.finite (((125 : ℕ) : ℚ) / (10 : ℚ) ^ (1 : ℕ))) := rfl
  rw [h]
  norm_num

theorem decParse_010 : decParse "0.10" = some (.finite (1 / 10)) := by
  have h : decParse "0.10" = some (.finite (((10 : ℕ) : ℚ) / (10 : ℚ) ^ (2 : ℕ))) := rfl
  rw [h]
  norm_num

/-- C2: the claim says a row whose amount field is `"NaN"` (or a
non-positive amount) makes the load fail with a corrupt-record error; in the
code `Decimal("NaN")` succeeds, so the row loads as an expense with a NaN
amount, and non-positive amounts load unvalidated as well — load does not
re-run add's amount validation. -/
theorem c2_nan_and_nonpositive_rows_load :
    read_expenses [⟨some "1", some "2024-01-02", some "NaN", some "food", some ""⟩]
      = .ok [{ expense_id := 1, expense_date := ⟨2024, 1, 2⟩, amount := .nan,
               category := "food", note := "" }]
    ∧ read_expenses [⟨some "1", some "2024-01-02", some "0", some "food", some ""⟩]
      = .ok [{ expense_id := 1, expense_date := ⟨2024, 1, 2⟩, amount := .finite 0,
               category := "food", note := "" }]
    ∧ read_expenses [⟨some "1", some "2024-01-02", some "-5", some "food", some ""⟩]
      = .ok [{ expense_id := 1, expense_date := ⟨2024, 1, 2⟩, amount := .finite (-5),
               category := "food", note := "" }]
    ∧ parse_amount "NaN" = .uncaughtInvalidOperation
    ∧ parse_amount "0" = .nonPositive := by
  have hcat : pyStrip ((some "food").getD "") = "food" := by decide
  have hnote : pyStrip ((some "").getD "") = "" := by decide
  refine ⟨by decide, ?_, ?_, rfl, ?_⟩
  · have h := from_csv_row_ok ⟨some "1", some "2024-01-02", some "0", some "food", some ""⟩
      1 ⟨2024, 1, 2⟩ (.finite 0) (by decide) (by decide) decParse_zero
    rw [hcat, hnote] at h
    exact read_expenses_singleton _ _ h
  · have h := from_csv_row_ok ⟨some "1", some "2024-01-02", some "-5", some "food", some ""⟩
      1 ⟨2024, 1, 2⟩ (.finite (-5)) (by decide) (by decide) decParse_neg5
    rw [hcat, hnote] at h
    exact read_expenses_singleton _ _ h
  · have h0 : (PyDec.finite 0).leZero = some true := by
      show some (decide ((0 : ℚ) ≤ 0)) = some true
      rw [decide_eq_true (le_refl (0 : ℚ))]
    simp only [parse_amount, decParse_zero, h0]

/-- Counterexample to C5 as stated: the error raised for a bad row does not
carry the row's line number — the same bad row at row 1 and at row 3
produces the identical error value, so no row number is named. -/
theorem c5_error_lacks_row_number :
    read_expenses [⟨some "3", some "2024-01-04", some "abc", some "f", some ""⟩]
      = .error "Invalid amount in CSV: abc"
    ∧ read_expenses
        [⟨some "1", some "2024-01-02", some "3.50", some "f", some ""⟩,
         ⟨some "2", some "2024-01-03", some "3.50", some "f", some ""⟩,
         ⟨some "3", some "2024-01-04", some "abc", some "f", some ""⟩]
      = .error "Invalid amount in CSV: abc" := by
  constructor <;> decide

/-- C5 (amended): if any row fails decode, the load fails with the first
failing row's error (a reason naming the offending value, with no row
number) and returns no partial result; on success every row is decoded — no
row is skipped. -/
theorem c5_fail_fast_no_partial_result :
    (∀ (pre : List Row) (bad : Row) (post : List Row) (msg : String),
      (∀ r ∈ pre, ∃ e, Expense.from_csv_row r = .ok e) →
      Expense.from_csv_row bad = .error msg →
      read_expenses (pre ++ bad :: post) = .error msg)
    ∧ (∀ (rows : List Row) (es : List Expense), read_expenses rows = .ok es →
        es.length = rows.length
        ∧ ∀ r ∈ rows, ∃ e, Expense.from_csv_row r = .ok e)
    ∧ (∀ (rows : List Row) (msg : String), read_expenses rows = .error msg →
        ∃ r ∈ rows, Expense.from_csv_row r = .error msg) := by
  refine ⟨?_, ?_, ?_⟩
  · intro pre bad post msg hpre hbad
    induction pre with
    | nil =>
      simp only [List.nil_append, read_expenses, hbad]
    | cons r rest ih =>
      obtain ⟨e, he⟩ := hpre r (List.mem_cons_self r rest)
      simp only [List.cons_append, read_expenses, he, List.append_eq]
      rw [ih (fun r' hr' => hpre r' (List.mem_cons_of_mem r hr'))]
  · intro rows
    induction rows with
    | nil =>
      intro es h
      cases h
      exact ⟨rfl, by intro r hr; cases hr⟩
    | cons r rest ih =>
      intro es h
      rw [read_expenses] at h
      cases he : Expense.from_csv_row r with
      | error msg => rw [he] at h; cases h
      | ok e =>
        rw [he] at h
        cases hrest : read_expenses rest with
        | error msg => rw [hrest] at h; cases h
        | ok es' =>
          rw [hrest] at h
          cases h
          obtain ⟨hlen, hall⟩ := ih es' hrest
          refine ⟨by simp [hlen], ?_⟩
          intro r' hr'
          rcases List.mem_cons.mp hr' with h' | h'
          · exact ⟨e, h' ▸ he⟩
          · exact hall r' h'
  · intro rows
    induction rows with
    | nil => intro msg h; cases h
    | cons r rest ih =>
      intro msg h
      rw [read_expenses] at h
      cases he : Expense.from_csv_row r with
      | error m =>
        rw [he] at h
        cases h
        exact ⟨r, List.mem_cons_self r rest, he⟩
      | ok e =>
        rw [he] at h
        cases hrest : read_expenses rest with
        | error m =>
          rw [hrest] at h
          cases h
          obtain ⟨r', hr', he'⟩ := ih _ hrest
          exact ⟨r', List.mem_cons_of_mem r hr', he'⟩
        | ok es' => rw [hrest] at h; cases h

/-- Witness for C5 (amended): one good row followed by a bad row fails with
the bad row's error, and a fully good file loads every row. -/
theorem c5_fail_fast_witness :
    read_expenses
        [⟨some "1", some "2024-01-02", some "3.50", some "f", some ""⟩,
         ⟨some "2", some "2024-01-03", some "abc", some "f", some ""⟩,
         ⟨some "9", some "2024-01-09", some "1.00", some "g", some ""⟩]
      = .error "Invalid amount in CSV: abc" := by
  exact c5_fail_fast_no_partial_result.1
    [⟨some "1", some "2024-01-02", some "3.50", some "f", some ""⟩]
    ⟨some "2", some "2024-01-03", some "abc", some "f", some ""⟩
    [⟨some "9", some "2024-01-09", some "1.00", some "g", some ""⟩]
    "Invalid amount in CSV: abc"
    (by intro r hr
        rcases List.mem_singleton.mp hr with rfl
        exact ⟨_, from_csv_row_ok _ 1 ⟨2024, 1, 2⟩ (.finite (7 / 2))
          (by decide) (by decide) decParse_350⟩)
    (by decide)

theorem from_csv_row_ok_iff (row : Row) (e : Expense) :
    Expense.from_csv_row row = .ok e ↔
      intParse (row.id.getD "0") = some e.expense_id
      ∧ parseDateChars (row.date.getD "").data = some e.expense_date
      ∧ decParse (row.amount.getD "0") = some e.amount
      ∧ e.category = pyStrip (row.category.getD "")
      ∧ e.note = pyStrip (row.note.getD "") := by
  obtain ⟨i, d, a, cat, note⟩ := e
  constructor
  · intro h
    unfold Expense.from_csv_row at h
    cases hi : intParse (row.id.getD "0") with
    | none => rw [hi] at h; cases h
    | some i' =>
      rw [hi] at h
      cases hd : parseDateChars (row.date.getD "").data with
      | none => rw [hd] at h; cases h
      | some d' =>
        rw [hd] at h
        cases ha : decParse (row.amount.getD "0") with
        | none => rw [ha] at h; cases h
        | some a' =>
          rw [ha] at h
          injection h with h2
          rw [Expense.mk.injEq] at h2
          obtain ⟨h1, h2d, h3, h4, h5⟩ := h2
          subst h1
          subst h2d
          subst h3
          exact ⟨rfl, rfl, rfl, h4.symm, h5.symm⟩
  · rintro ⟨hi, hd, ha, hc, hn⟩
    rw [from_csv_row_ok row i d a hi hd ha, ← hc, ← hn]

/-- Counterexample to C9 as stated: a record with the id field absent does
not fail with an invalid-identifier error — it decodes successfully with
id 0 (the `row.get("id", "0")` default); and a negative id string decodes to
a negative id, so the parsed id is not a non-negative integer either. -/
theorem c9_absent_id_defaults_and_negative_id_loads :
    Expense.from_csv_row ⟨none, some "2024-01-02", some "3.50", some "food", some "hi"⟩
      = .ok { expense_id := 0, expense_date := ⟨2024, 1, 2⟩, amount := .finite (7 / 2),
              category := "food", note := "hi" }
    ∧ Expense.from_csv_row ⟨some "-7", some "2024-01-02", some "3.50", some "food", some "hi"⟩
      = .ok { expense_id := -7, expense_date := ⟨2024, 1, 2⟩, amount := .finite (7 / 2),
              category := "food", note := "hi" } := by
  have hcat : pyStrip ((some "food").getD "") = "food" := by decide
  have hnote : pyStrip ((some "hi").getD "") = "hi" := by decide
  constructor
  · have h := from_csv_row_ok ⟨none, some "2024-01-02", some "3.50", some "food", some "hi"⟩
      0 ⟨2024, 1, 2⟩ (.finite (7 / 2)) (by decide) (by decide) decParse_350
    rw [hcat, hnote] at h
    exact h
  · have h := from_csv_row_ok ⟨some "-7", some "2024-01-02", some "3.50", some "food", some "hi"⟩
      (-7) ⟨2024, 1, 2⟩ (.finite (7 / 2)) (by decide) (by decide) decParse_350
    rw [hcat, hnote] at h
    exact h

/-- C9 (amended): decode parses the id field as a (possibly negative)
integer, defaulting it to 0 when the field is absent; it fails with the
invalid-id error exactly when the field is present and not an integer
string; category and note are looked up by field name and default to the
empty string (then stripped) when missing. -/
theorem c9_id_parsing_and_name_lookup :
    (∀ row : Row, row.id = none →
      Expense.from_csv_row row = Expense.from_csv_row { row with id := some "0" })
    ∧ (∀ (row : Row) (s : String), row.id = some s → intParse s = none →
        Expense.from_csv_row row = .error ("Invalid id in CSV: " ++ s))
    ∧ (∀ (row : Row) (s : String) (i : Int) (e : Expense), row.id = some s →
        intParse s = some i → Expense.from_csv_row row = .ok e → e.expense_id = i)
    ∧ (∀ (row : Row) (e : Expense), Expense.from_csv_row row = .ok e →
        e.category = pyStrip (row.category.getD "")
        ∧ e.note = pyStrip (row.note.getD ""))
    ∧ (∀ row : Row, row.category = none → ∀ e, Expense.from_csv_row row = .ok e →
        e.category = "")
    ∧ (∀ row : Row, row.note = none → ∀ e, Expense.from_csv_row row = .ok e →
        e.note = "") := by
  refine ⟨?_, ?_, ?_, ?_, ?_, ?_⟩
  · intro row h
    unfold Expense.from_csv_row
    rw [h]
    rfl
  · intro row s hs hp
    unfold Expense.from_csv_row
    rw [hs]
    simp only [Option.getD_some, hp]
  · intro row s i e hs hp hok
    rw [from_csv_row_ok_iff] at hok
    rw [hs, Option.getD_some, hp] at hok
    exact (Option.some_inj.mp hok.1).symm
  · intro row e hok
    rw [from_csv_row_ok_iff] at hok
    exact ⟨hok.2.2.2.1, hok.2.2.2.2⟩
  · intro row hc e hok
    rw [from_csv_row_ok_iff] at hok
    rw [hc] at hok
    exact hok.2.2.2.1
  · intro row hn e hok
    rw [from_csv_row_ok_iff] at hok
    rw [hn] at hok
    exact hok.2.2.2.2

/-- Witness for C9 (amended) at concrete rows: a non-numeric id fails with
the invalid-id error; a numeric id is parsed into the record. -/
theorem c9_id_parsing_witness :
    Expense.from_csv_row ⟨some "xy", some "2024-01-02", some "3.50", some "f", some ""⟩
      = .error "Invalid id in CSV: xy"
    ∧ ∀ e, Expense.from_csv_row
        ⟨some "12", some "2024-01-02", some "3.50", some "f", some ""⟩ = .ok e →
        e.expense_id = 12 := by
  constructor
  · exact c9_id_parsing_and_name_lookup.2.1
      ⟨some "xy", some "2024-01-02", some "3.50", some "f", some ""⟩ "xy" rfl (by decide)
  · intro e he
    exact c9_id_parsing_and_name_lookup.2.2.1
      ⟨some "12", some "2024-01-02", some "3.50", some "f", some ""⟩ "12" 12 e rfl
      (by decide) he

/-- C8: amount parsing at add time fails with the invalid-amount error on
every string the `Decimal` constructor rejects, fails with the non-positive
error on every finite value ≤ 0, accepts every strictly positive finite
decimal value unchanged, and the accepted amount is persisted rounded
half-up to exactly two fractional digits (`"12.5"` persists as `"12.50"`). -/
theorem c8_parse_amount :
    (∀ s : String, decParse s = none → parse_amount s = .invalidAmount)
    ∧ (∀ (s : String) (q : ℚ), decParse s = some (.finite q) → q ≤ 0 →
        parse_amount s = .nonPositive)
    ∧ (∀ (s : String) (q : ℚ), decParse s = some (.finite q) → 0 < q →
        parse_amount s = .ok (.finite q))
    ∧ parse_amount "0" = .nonPositive
    ∧ parse_amount "-5" = .nonPositive
    ∧ parse_amount "abc" = .invalidAmount
    ∧ parse_amount "12.5" = .ok (.finite (25 / 2))
    ∧ (∀ (e : Expense) (q : ℚ), e.amount = .finite q →
        ∃ r, e.to_csv_row = some r
          ∧ r.amount = some (formatCents (roundHalfUp (q * 100))))
    ∧ (∃ r, Expense.to_csv_row
        { expense_id := 1, expense_date := ⟨2024, 1, 2⟩, amount := .finite (25 / 2),
          category := "food", note := "" } = some r ∧ r.amount = some "12.50") := by
  refine ⟨?_, ?_, ?_, ?_, ?_, rfl, ?_, ?_, ?_⟩
  · intro s h
    unfold parse_amount
    rw [h]
  · intro s q h hq
    simp only [parse_amount, h, PyDec.leZero, decide_eq_true hq]
  · intro s q h hq
    simp only [parse_amount, h, PyDec.leZero, decide_eq_false (not_le.mpr hq)]
  · simp only [parse_amount, decParse_zero, PyDec.leZero, decide_eq_true (le_refl (0 : ℚ))]
  · simp only [parse_amount, decParse_neg5, PyDec.leZero,
      decide_eq_true (by norm_num : (-5 : ℚ) ≤ 0)]
  · simp only [parse_amount, decParse_125, PyDec.leZero,
      decide_eq_false (by norm_num : ¬((25 / 2 : ℚ) ≤ 0))]
  · intro e q h
    obtain ⟨i, d, a, cat, note⟩ := e
    simp only at h
    subst h
    exact ⟨_, rfl, rfl⟩
  · have hr : roundHalfUp ((25 / 2 : ℚ) * 100) = 1250 := by
      unfold roundHalfUp
      rw [if_pos (by norm_num)]
      have h1 : ((25 / 2 : ℚ) * 100 + 1 / 2) = 2501 / 2 := by norm_num
      rw [h1, Int.floor_eq_iff]
      constructor <;> norm_num
    refine ⟨_, rfl, ?_⟩
    show some (formatCents (roundHalfUp ((25 / 2 : ℚ) * 100))) = some "12.50"
    rw [hr]
    decide

/-- Witness for C8 at concrete inputs: `"7.25"` is accepted with its exact
value, `"xyz"` is rejected as non-numeric. -/
theorem c8_parse_amount_witness :
    parse_amount "7.25" = .ok (.finite (29 / 4)) ∧ parse_amount "xyz" = .invalidAmount := by
  constructor
  · refine c8_parse_amount.2.2.1 "7.25" (29 / 4) ?_ (by norm_num)
    have h : decParse "7.25" = some (.finite (((725 : ℕ) : ℚ) / (10 : ℚ) ^ (2 : ℕ))) := rfl
    rw [h]
    norm_num
  · exact c8_parse_amount.1 "xyz" (by decide)

theorem roundHalfUp_nonneg (x : ℚ) (hx : 0 ≤ x) : 0 ≤ roundHalfUp x := by
  unfold roundHalfUp
  rw [if_pos hx]
  exact Int.floor_nonneg.mpr (by linarith)

/-- C1: for every valid expense (positive id, calendar-valid date, positive
finite amount, stripped category and note), decoding the encoded 5-field
record succeeds and yields the same id, date, category and note, with the
amount equal to the original rounded half-up to two fractional digits. -/
theorem c1_encode_decode_round_trip (e : Expense) (q : ℚ)
    (hamt : e.amount = .finite q) (hpos : 0 < q)
    (hid : 0 < e.expense_id)
    (hdate : validDate e.expense_date = true)
    (hcat : pyStrip e.category = e.category)
    (hnote : pyStrip e.note = e.note) :
    ∃ row, e.to_csv_row = some row
      ∧ Expense.from_csv_row row
          = .ok { expense_id := e.expense_id, expense_date := e.expense_date,
                  amount := .finite (quantize2 q), category := e.category,
                  note := e.note } := by
  obtain ⟨i, d, a, cat, note⟩ := e
  simp only at hamt hid hdate hcat hnote
  subst hamt
  refine ⟨_, rfl, ?_⟩
  have h := from_csv_row_ok
    { id := some (intToStr i), date := some (isoformat d),
      amount := some (formatCents (roundHalfUp (q * 100))),
      category := some cat, note := some note }
    i d (.finite (quantize2 q)) ?_ ?_ ?_
  · rw [h]
    simp only [Option.getD_some]
    rw [hcat, hnote]
  · simp only [Option.getD_some]
    exact intParse_intToStr i (le_of_lt hid)
  · simp only [Option.getD_some]
    exact parseDateChars_isoformat d hdate
  · simp only [Option.getD_some]
    have hnn : 0 ≤ roundHalfUp (q * 100) := roundHalfUp_nonneg _ (by positivity)
    rw [decParse_formatCents _ hnn]
    rfl

/-- Witness for C1 at a concrete valid expense (id 3, date 2024-02-29,
amount 2, category "food", note "trip"). -/
theorem c1_encode_decode_round_trip_witness :
    ∃ row,
      (Expense.to_csv_row
        { expense_id := 3, expense_date := ⟨2024, 2, 29⟩, amount := .finite 2,
          category := "food", note := "trip" }) = some row
      ∧ Expense.from_csv_row row
          = .ok { expense_id := 3, expense_date := ⟨2024, 2, 29⟩,
                  amount := .finite (quantize2 2), category := "food", note := "trip" } :=
  c1_encode_decode_round_trip
    { expense_id := 3, expense_date := ⟨2024, 2, 29⟩, amount := .finite 2,
      category := "food", note := "trip" }
    2 rfl (by norm_num) (by decide) (by decide) (by decide) (by decide)

theorem within_range_eq_le (d : PyDate) (s t : Option PyDate) :
    within_range d s t
      = ((match s with | none => true | some sd => dateLe sd d)
          && (match t with | none => true | some td => dateLe d td)) := by
  unfold within_range
  cases s <;> cases t <;> simp only [not_dateLt]

/-- C6: the list filter keeps a record iff its category matches the filter
case-insensitively and exactly (everything passes when the filter is absent
or blank) and its date lies in the inclusive range; it preserves input
order.  The spec's concrete example and a substring probe are included. -/
theorem c6_filter_characterization :
    (∀ (l : List Expense) (c : Option String) (s t : Option PyDate),
      filter_expenses l c s t = l.filter (fun e =>
        (match c with
         | none => true
         | some f =>
           if pyStrip f = "" then true
           else pyLower e.category == pyLower (pyStrip f))
        && ((match s with | none => true | some sd => dateLe sd e.expense_date)
            && (match t with | none => true | some td => dateLe e.expense_date td))))
    ∧ (∀ (l : List Expense) (c : Option String) (s t : Option PyDate),
        (filter_expenses l c s t).Sublist l)
    ∧ filter_expenses
        [{ expense_id := 1, expense_date := ⟨2024, 1, 5⟩, amount := .finite 1,
           category := "food", note := "" },
         { expense_id := 2, expense_date := ⟨2024, 2, 10⟩, amount := .finite 1,
           category := "FOOD", note := "" },
         { expense_id := 3, expense_date := ⟨2024, 2, 20⟩, amount := .finite 1,
           category := "rent", note := "" }] (some "food") none none
      = [{ expense_id := 1, expense_date := ⟨2024, 1, 5⟩, amount := .finite 1,
           category := "food", note := "" },
         { expense_id := 2, expense_date := ⟨2024, 2, 10⟩, amount := .finite 1,
           category := "FOOD", note := "" }]
    ∧ filter_expenses
        [{ expense_id := 1, expense_date := ⟨2024, 1, 5⟩, amount := .finite 1,
           category := "food", note := "" },
         { expense_id := 2, expense_date := ⟨2024, 2, 10⟩, amount := .finite 1,
           category := "FOOD", note := "" },
         { expense_id := 3, expense_date := ⟨2024, 2, 20⟩, amount := .finite 1,
           category := "rent", note := "" }] none (some ⟨2024, 2, 1⟩) (some ⟨2024, 2, 15⟩)
      = [{ expense_id := 2, expense_date := ⟨2024, 2, 10⟩, amount := .finite 1,
           category := "FOOD", note := "" }]
    ∧ filter_expenses
        [{ expense_id := 1, expense_date := ⟨2024, 1, 5⟩, amount := .finite 1,
           category := "food", note := "" }] (some "foo") none none = [] := by
  refine ⟨?_, ?_, by decide, by decide, by decide⟩
  · intro l c s t
    unfold filter_expenses
    apply List.filter_congr
    intro e _
    rw [within_range_eq_le]
    congr 1
    cases c with
    | none => rfl
    | some f =>
      simp only [category_filter_of]
      by_cases hf : pyStrip f = ""
      · rw [if_pos ((pyLower_eq_empty _).mpr hf), if_pos hf]
      · rw [if_neg (fun hc => hf ((pyLower_eq_empty _).mp hc)), if_neg hf]
  · intro l c s t
    exact List.filter_sublist l

theorem summary_totals_foldl (start stop : Option PyDate) (g : Grouping) :
    ∀ (l : List Expense) (t : String → PyDec) (k : String) (q : ℚ),
      (∀ e ∈ l, e.amount.isFinite = true) → t k = .finite q →
      (l.foldl
        (fun totals e =>
          if within_range e.expense_date start stop then
            fun k' => if k' = summary_key g e then (totals k').add e.amount else totals k'
          else totals) t) k
      = .finite (q + ((l.filter (fun e =>
          within_range e.expense_date start stop && (summary_key g e == k))).map
            (fun e => e.amount.toQ)).sum) := by
  intro l
  induction l with
  | nil =>
    intro t k q _ ht
    simpa using ht
  | cons e l ih =>
    intro t k q hfin ht
    have hefin := hfin e (List.mem_cons_self e l)
    obtain ⟨qe, hqe⟩ : ∃ qe, e.amount = .finite qe := by
      cases hae : e.amount with
      | finite q' => exact ⟨q', rfl⟩
      | nan => rw [hae] at hefin; cases hefin
      | inf b => rw [hae] at hefin; cases hefin
    have hftail : ∀ x ∈ l, x.amount.isFinite = true :=
      fun x hx => hfin x (List.mem_cons_of_mem e hx)
    show (l.foldl _
      (if within_range e.expense_date start stop then
        fun k' => if k' = summary_key g e then (t k').add e.amount else t k'
      else t)) k = _
    by_cases hw : within_range e.expense_date start stop
    · rw [if_pos hw]
      by_cases hk : summary_key g e = k
      · have ht' : (fun k' =>
            if k' = summary_key g e then (t k').add e.amount else t k') k
            = .finite (q + qe) := by
          show (if k = summary_key g e then (t k).add e.amount else t k)
            = .finite (q + qe)
          rw [if_pos hk.symm, ht, hqe]
          rfl
        rw [ih _ k (q + qe) hftail ht']
        have hp : (within_range e.expense_date start stop
            && (summary_key g e == k)) = true := by
          rw [hw, hk]
          simp
        simp only [List.filter_cons, hp, if_true, List.map_cons, List.sum_cons]
        congr 1
        rw [hqe]
        show q + qe + _ = q + (qe + _)
        ring
      · have ht' : (fun k' =>
            if k' = summary_key g e then (t k').add e.amount else t k') k
            = .finite q := by
          show (if k = summary_key g e then (t k).add e.amount else t k) = .finite q
          rw [if_neg (fun hc => hk hc.symm), ht]
        rw [ih _ k q hftail ht']
        have hp : (within_range e.expense_date start stop
            && (summary_key g e == k)) = false := by
          simp [hk]
        simp only [List.filter_cons, hp, Bool.false_eq_true, if_false]
    · rw [if_neg hw]
      rw [ih _ k q hftail ht]
      have hp : (within_range e.expense_date start stop
          && (summary_key g e == k)) = false := by
        simp [hw]
      simp only [List.filter_cons, hp, Bool.false_eq_true, if_false]

/-- C4: the summary total of each key is the exact rational sum of the
amounts of the in-range records with that key; an empty record set (or a
filter matching nothing) yields the zero mapping, a normal value; three
records of amount 0.10 in one category grouped by category total exactly
0.30 under that category's key and 0 everywhere else. -/
theorem c4_group_totals_exact :
    (∀ (l : List Expense) (start stop : Option PyDate) (g : Grouping) (k : String),
      (∀ e ∈ l, e.amount.isFinite = true) →
      summary_totals l start stop g k
        = .finite (((l.filter (fun e =>
            within_range e.expense_date start stop && (summary_key g e == k))).map
              (fun e => e.amount.toQ)).sum))
    ∧ (∀ (start stop : Option PyDate) (g : Grouping) (k : String),
        summary_totals [] start stop g k = .finite 0)
    ∧ summary_totals
        [{ expense_id := 1, expense_date := ⟨2024, 1, 1⟩, amount := .finite (1 / 10),
           category := "food", note := "" },
         { expense_id := 2, expense_date := ⟨2024, 1, 2⟩, amount := .finite (1 / 10),
           category := "food", note := "" },
         { expense_id := 3, expense_date := ⟨2024, 1, 3⟩, amount := .finite (1 / 10),
           category := "food", note := "" }] none none .category "food"
      = .finite (3 / 10)
    ∧ (∀ k : String, k ≠ "food" →
        summary_totals
          [{ expense_id := 1, expense_date := ⟨2024, 1, 1⟩, amount := .finite (1 / 10),
             category := "food", note := "" },
           { expense_id := 2, expense_date := ⟨2024, 1, 2⟩, amount := .finite (1 / 10),
             category := "food", note := "" },
           { expense_id := 3, expense_date := ⟨2024, 1, 3⟩, amount := .finite (1 / 10),
             category := "food", note := "" }] none none .category k = .finite 0) := by
  have hmain : ∀ (l : List Expense) (start stop : Option PyDate) (g : Grouping) (k : String),
      (∀ e ∈ l, e.amount.isFinite = true) →
      summary_totals l start stop g k
        = .finite (((l.filter (fun e =>
            within_range e.expense_date start stop && (summary_key g e == k))).map
              (fun e => e.amount.toQ)).sum) := by
    intro l start stop g k hfin
    unfold summary_totals
    rw [summary_totals_foldl start stop g l _ k 0 hfin rfl]
    congr 1
    ring
  refine ⟨hmain, ?_, ?_, ?_⟩
  · intro start stop g k
    exact hmain [] start stop g k (by intro e he; cases he)
  · rw [hmain _ _ _ _ _ (by intro e he; fin_cases he <;> rfl)]
    have hfil : List.filter
        (fun e => within_range e.expense_date none none
          && (summary_key Grouping.category e == "food"))
        [{ expense_id := 1, expense_date := ⟨2024, 1, 1⟩, amount := .finite (1 / 10),
           category := "food", note := "" },
         { expense_id := 2, expense_date := ⟨2024, 1, 2⟩, amount := .finite (1 / 10),
           category := "food", note := "" },
         { expense_id := 3, expense_date := ⟨2024, 1, 3⟩, amount := .finite (1 / 10),
           category := "food", note := "" }]
      = [{ expense_id := 1, expense_date := ⟨2024, 1, 1⟩, amount := .finite (1 / 10),
           category := "food", note := "" },
         { expense_id := 2, expense_date := ⟨2024, 1, 2⟩, amount := .finite (1 / 10),
           category := "food", note := "" },
         { expense_id := 3, expense_date := ⟨2024, 1, 3⟩, amount := .finite (1 / 10),
           category := "food", note := "" }] := by
      apply List.filter_eq_self.mpr
      intro e he
      fin_cases he <;> decide
    rw [hfil]
    simp only [List.map_cons, List.map_nil, List.sum_cons, List.sum_nil]
    show PyDec.finite ((1 : ℚ) / 10 + (1 / 10 + (1 / 10 + 0))) = .finite (3 / 10)
    norm_num
  · intro k hk
    rw [hmain _ _ _ _ _ (by intro e he; fin_cases he <;> rfl)]
    have hfil : List.filter
        (fun e => within_range e.expense_date none none
          && (summary_key Grouping.category e == k))
        [{ expense_id := 1, expense_date := ⟨2024, 1, 1⟩, amount := .finite (1 / 10),
           category := "food", note := "" },
         { expense_id := 2, expense_date := ⟨2024, 1, 2⟩, amount := .finite (1 / 10),
           category := "food", note := "" },
         { expense_id := 3, expense_date := ⟨2024, 1, 3⟩, amount := .finite (1 / 10),
           category := "food", note := "" }] = [] := by
      apply List.filter_eq_nil_iff.mpr
      intro e he
      fin_cases he <;>
        · show ¬ (true && (("food" : String) == k)) = true
          rw [Bool.true_and]
          intro hc
          exact hk (beq_iff_eq.mp hc).symm
    rw [hfil]
    rfl

/-- Witness for C4: the exact-sum characterization applied at the concrete
three-record store, key "food". -/
theorem c4_group_totals_exact_witness :
    summary_totals
      [{ expense_id := 1, expense_date := ⟨2024, 1, 1⟩, amount := .finite (1 / 10),
         category := "food", note := "" }] none none .day "2024-01-01"
      = .finite ((([{ expense_id := 1, expense_date := ⟨2024, 1, 1⟩,
                      amount := .finite (1 / 10), category := "food",
                      note := "" }].filter
            (fun e => within_range e.expense_date none none
              && (summary_key Grouping.day e == "2024-01-01"))).map
              (fun e => e.amount.toQ)).sum) :=
  c4_group_totals_exact.1
    [{ expense_id := 1, expense_date := ⟨2024, 1, 1⟩, amount := .finite (1 / 10),
       category := "food", note := "" }] none none .day "2024-01-01"
    (by intro e he; fin_cases he; rfl)

/-! ## Date-string grammar (C7) -/

/-- The claim's reading of accepted date strings: exactly the zero-padded
`YYYY-MM-DD` pattern denoting an existing calendar date.  (Stated from the
spec's words, to compare with the parser's actual grammar.) -/
def isZeroPaddedDateStr (s : String) : Bool :=
  match s.data with
  | [y1, y2, y3, y4, h1, m1, m2, h2, d1, d2] =>
    y1.isDigit && y2.isDigit && y3.isDigit && y4.isDigit
      && (h1 == '-') && (h2 == '-')
      && m1.isDigit && m2.isDigit && d1.isDigit && d2.isDigit
      && validDate ⟨digitsToNat [y1, y2, y3, y4], digitsToNat [m1, m2],
           digitsToNat [d1, d2]⟩
  | _ => false

/-- Counterexample to C7 as stated: `"2024-2-9"` is not in the zero-padded
`YYYY-MM-DD` pattern, yet `parse_date` accepts it (CPython's `strptime`
`%m`/`%d` match one or two digits); and the empty string does not fail
either — it defaults to today. -/
theorem c7_accepts_non_zero_padded :
    parse_date (some "2024-2-9") ⟨2025, 1, 1⟩ = .ok ⟨2024, 2, 9⟩
    ∧ isZeroPaddedDateStr "2024-2-9" = false
    ∧ parse_date (some "") ⟨2025, 1, 1⟩ = .ok ⟨2025, 1, 1⟩ := by
  refine ⟨by decide, by decide, by decide⟩

/-- The exact grammar `strptime("%Y-%m-%d")` accepts, written declaratively:
four year digits, a dash, one or two month digits, a dash, one or two day
digits consuming the whole string, denoting a constructible calendar date. -/
def DateStrSpec (cs : List Char) (dt : PyDate) : Prop :=
  ∃ ys ms ds : List Char,
    cs = ys ++ '-' :: (ms ++ '-' :: ds)
    ∧ ys.length = 4 ∧ 1 ≤ ms.length ∧ ms.length ≤ 2 ∧ 1 ≤ ds.length ∧ ds.length ≤ 2
    ∧ ys.all Char.isDigit = true ∧ ms.all Char.isDigit = true
    ∧ ds.all Char.isDigit = true
    ∧ digitsToNat ys = dt.year ∧ digitsToNat ms = dt.month ∧ digitsToNat ds = dt.day
    ∧ validDate dt = true

theorem length_eq_four {l : List Char} (h : l.length = 4) :
    ∃ a b c d, l = [a, b, c, d] := by
  rcases l with _ | ⟨a, _ | ⟨b, _ | ⟨c, _ | ⟨d, _ | ⟨e, t⟩⟩⟩⟩⟩
  · simp at h
  · simp at h
  · simp at h
  · simp at h
  · exact ⟨a, b, c, d, rfl⟩
  · simp at h

theorem parseDateChars_iff (cs : List Char) (dt : PyDate) :
    parseDateChars cs = some dt ↔ DateStrSpec cs dt := by
  obtain ⟨y, m, d⟩ := dt
  constructor
  · intro h
    rcases cs with _ | ⟨c1, _ | ⟨c2, _ | ⟨c3, _ | ⟨c4, _ | ⟨c5, rest⟩⟩⟩⟩⟩
    · exact Option.noConfusion h
    · exact Option.noConfusion h
    · exact Option.noConfusion h
    · exact Option.noConfusion h
    · exact Option.noConfusion h
    · simp only [parseDateChars] at h
      split at h
      · rename_i hc
        split at h
        · rename_i c6 rest3 hp
          split at h
          · rename_i h6
            split at h
            · rename_i hcond
              injection h with hinj
              rw [PyDate.mk.injEq] at hinj
              obtain ⟨hyv, hmv, hdv⟩ := hinj
              simp only [Bool.and_eq_true, decide_eq_true_eq] at hc hcond
              obtain ⟨⟨⟨⟨hd1, hd2⟩, hd3⟩, hd4⟩, h5eq⟩ := hc
              obtain ⟨⟨⟨⟨⟨⟨⟨⟨⟨hqe, hm1⟩, hm2⟩, hmn1⟩, hmn2⟩, hdl1⟩, hdl2⟩, hdn1⟩,
                hdn2⟩, hvd⟩ := hcond
              have hc5 : c5 = '-' := beq_iff_eq.mp h5eq
              have hc6 : c6 = '-' := beq_iff_eq.mp h6
              obtain ⟨hsplit, hmsdig, hmshd⟩ := takeDigits_spec rest
              obtain ⟨hsplit3, hdsdig, hdshd⟩ := takeDigits_spec rest3
              have hq2 : (takeDigits rest3).2 = [] := by
                cases hq : (takeDigits rest3).2 with
                | nil => rfl
                | cons x xs => rw [hq] at hqe; cases hqe
              refine ⟨[c1, c2, c3, c4], (takeDigits rest).1, (takeDigits rest3).1,
                ?_, rfl, hm1, hm2, hdl1, hdl2, ?_, hmsdig, hdsdig, hyv, hmv, hdv, ?_⟩
              · have hr : rest = (takeDigits rest).1 ++ c6 :: rest3 := by
                  rw [← hp, hsplit]
                have h3 : rest3 = (takeDigits rest3).1 := by
                  rw [← List.append_nil (takeDigits rest3).1, ← hq2, hsplit3]
                conv_lhs => rw [hc5, hr, hc6, h3]
                rfl
              · simp [hd1, hd2, hd3, hd4]
              · rw [← hyv, ← hmv, ← hdv]
                exact hvd
            · exact Option.noConfusion h
          · exact Option.noConfusion h
        · exact Option.noConfusion h
      · exact Option.noConfusion h
  · rintro ⟨ys, ms, ds, hcs, hy4, hm1, hm2, hdl1, hdl2, hyd, hmd, hdd, hyv, hmv,
      hdv, hval⟩
    obtain ⟨a, b, c, dch, rfl⟩ := length_eq_four hy4
    subst hcs
    simp only [List.cons_append, List.nil_append]
    simp only [List.all_cons, List.all_nil, Bool.and_eq_true, and_true] at hyd
    obtain ⟨ha, hb, hcc, hdc⟩ := hyd
    simp only [parseDateChars, ha, hb, hcc, hdc, beq_self_eq_true, Bool.and_self,
      Bool.true_and, Bool.and_true, if_true]
    rw [takeDigits_append ms hmd _ (by intro x xs hx; cases hx; decide)]
    simp only [beq_self_eq_true, if_true]
    rw [takeDigits_all ds hdd]
    have hbounds := hval
    simp only [validDate, Bool.and_eq_true, decide_eq_true_eq] at hbounds
    obtain ⟨⟨⟨⟨⟨hy1, hy2⟩, hmb1⟩, hmb2⟩, hdb1⟩, hdb2⟩ := hbounds
    have hd31 : d ≤ 31 := hdb2.trans (daysInMonth_le_31 y m)
    rw [if_pos]
    · rw [hyv, hmv, hdv]
    · rw [hyv, hmv, hdv]
      simp only [List.isEmpty_nil, hval, Bool.and_eq_true, decide_eq_true_eq]
      exact ⟨⟨⟨⟨⟨⟨⟨⟨⟨trivial, hm1⟩, hm2⟩, hmb1⟩, hmb2⟩, hdl1⟩, hdl2⟩, hdb1⟩, hd31⟩,
        trivial⟩

/-- C7 (amended): date parsing at creation accepts exactly the strings of
the form `Y⁴-M¹⁻²-D¹⁻²` (four year digits, one or two month and day digits,
zero padding not required) denoting a constructible calendar date; absent or
empty input defaults to today; every other string fails with the
invalid-date error.  The spec's three examples behave as claimed. -/
theorem c7_date_parsing_amended :
    (∀ (s : String) (dt today : PyDate), s ≠ "" →
      (parse_date (some s) today = .ok dt ↔ DateStrSpec s.data dt))
    ∧ (∀ today : PyDate, parse_date none today = .ok today)
    ∧ (∀ today : PyDate, parse_date (some "") today = .ok today)
    ∧ (∀ (s : String) (today : PyDate), s ≠ "" → parseDateChars s.data = none →
        parse_date (some s) today = .error "Invalid date format. Use YYYY-MM-DD.")
    ∧ parse_date (some "2024-02-30") ⟨2025, 1, 1⟩
        = .error "Invalid date format. Use YYYY-MM-DD."
    ∧ parse_date (some "2024-13-01") ⟨2025, 1, 1⟩
        = .error "Invalid date format. Use YYYY-MM-DD."
    ∧ parse_date (some "2024-02-29") ⟨2025, 1, 1⟩ = .ok ⟨2024, 2, 29⟩ := by
  refine ⟨?_, fun _ => rfl, fun _ => rfl, ?_, by decide, by decide, by decide⟩
  · intro s dt today hs
    simp only [parse_date]
    rw [if_neg hs, ← parseDateChars_iff]
    cases hp : parseDateChars s.data with
    | none => simp
    | some d' => simp
  · intro s today hs hn
    simp only [parse_date]
    rw [if_neg hs, hn]

/-- Witness for C7 (amended): the non-zero-padded `"2024-2-9"` satisfies the
grammar (via the accepted parse), and a non-date string fails. -/
theorem c7_date_parsing_amended_witness :
    DateStrSpec ("2024-2-9").data ⟨2024, 2, 9⟩
    ∧ parse_date (some "abc") ⟨2025, 1, 1⟩
        = .error "Invalid date format. Use YYYY-MM-DD." := by
  constructor
  · exact (c7_date_parsing_amended.1 "2024-2-9" ⟨2024, 2, 9⟩ ⟨2025, 1, 1⟩
      (by decide)).mp (by decide)
  · exact c7_date_parsing_amended.2.2.2.1 "abc" ⟨2025, 1, 1⟩ (by decide) (by decide)

end ExpTrack
